import Mathlib

/-!
Verification of the ledger-engine logic of `src/expense-tracker.tsx`.

The TypeScript component is shallowly embedded: JavaScript numbers are
modelled by `ℚ` (the engine performs only exact decimal arithmetic and
rounding; `NaN` is modelled by `Option.none` at the points where the code
can produce it), the React `useState` cells become fields of a `State`
record, and the stable ECMAScript `Array.prototype.sort` is modelled by
`List.insertionSort`, which is also stable, and agrees with every stable
sort whenever the comparison is total and transitive.
-/

namespace ExpenseTracker

/-- A transaction record (`type Expense` in the source).  The optional
free-text `note` field is `note?: string` in the source. -/
structure Expense where
  id : String
  date : String
  amount : ℚ
  category : String
  note : Option String
deriving DecidableEq

/-- `DEFAULT_CATEGORIES` from the source. -/
def DEFAULT_CATEGORIES : List String :=
  ["Food", "Transport", "Bills", "Shopping", "Entertainment", "Health",
   "Education", "Other"]

/-- The `sortKey` state: `"date" | "amount" | "category"`. -/
inductive SortKey where
  | date
  | amount
  | category
deriving DecidableEq

/-- The `sortDir` state: `"asc" | "desc"`. -/
inductive SortDir where
  | asc
  | desc
deriving DecidableEq

/-- The component state: the two persisted collections (`expenses`,
`categories`), the add-form fields (`date`, `amountVal`, `category`,
`note`) and the filter/sort controls (`fromDate`, `toDate`, `catFilter`,
`sortKey`, `sortDir`).  The source keeps the amount form field as a raw
string and applies `parseFloat` inside `addExpense`; `amountVal` models
the parsed value, with `none` standing for `NaN`. -/
structure State where
  expenses : List Expense
  categories : List String
  date : String
  amountVal : Option ℚ
  category : String
  note : String
  fromDate : String
  toDate : String
  catFilter : String
  sortKey : SortKey
  sortDir : SortDir
deriving DecidableEq

/-- The initial component state.  `today` models the
`new Date().toISOString().slice(0, 10)` initialiser of the date field. -/
def initState (today : String) : State :=
  { expenses := []
    categories := DEFAULT_CATEGORIES
    date := today
    amountVal := none
    category := "Food"
    note := ""
    fromDate := ""
    toDate := ""
    catFilter := "ALL"
    sortKey := SortKey.date
    sortDir := SortDir.desc }

/-! ### JavaScript string and number primitives used by `parseDate` -/

/-- Whitespace as trimmed by JavaScript string-to-number conversion and
`String.prototype.trim` (the common ASCII cases; exotic Unicode spaces are
not modelled). -/
def jsWhite (c : Char) : Bool :=
  c == ' ' || c == '\t' || c == '\n' || c == '\r' ||
  c == Char.ofNat 11 || c == Char.ofNat 12

/-- Trim `jsWhite` characters from both ends of a character list. -/
def trimChars (cs : List Char) : List Char :=
  ((cs.dropWhile jsWhite).reverse.dropWhile jsWhite).reverse

/-- Models `String.prototype.trim`. -/
def jsTrim (s : String) : String :=
  String.mk (trimChars s.data)

/-- Models `str.split("-")` on the underlying character list. -/
def splitDash : List Char → List (List Char)
  | [] => [[]]
  | c :: rest =>
    if c == '-' then [] :: splitDash rest
    else
      match splitDash rest with
      | g :: gs => (c :: g) :: gs
      | [] => [[c]]

/-- The numeric value of a digit character in the given base, if valid. -/
def digitVal (base : Nat) (c : Char) : Option Nat :=
  let v :=
    if c.isDigit then some (c.toNat - 48)
    else if 97 ≤ c.toNat && c.toNat ≤ 122 then some (c.toNat - 87)
    else if 65 ≤ c.toNat && c.toNat ≤ 90 then some (c.toNat - 55)
    else none
  match v with
  | some n => if n < base then some n else none
  | none => none

/-- Value of a non-empty all-digit string in the given base. -/
def digitsVal (base : Nat) (cs : List Char) : Option Nat :=
  if cs.isEmpty then none
  else
    cs.foldl
      (fun acc c =>
        match acc, digitVal base c with
        | some a, some d => some (a * base + d)
        | _, _ => none)
      (some 0)

/-- The exponent part of a decimal literal (everything after `e`/`E`). -/
def parseExpPart (cs : List Char) : Option ℤ :=
  match cs with
  | '+' :: ds => (digitsVal 10 ds).map (fun n => (n : ℤ))
  | '-' :: ds => (digitsVal 10 ds).map (fun n => -(n : ℤ))
  | ds => (digitsVal 10 ds).map (fun n => (n : ℤ))

/-- The mantissa of a decimal literal: `Digits`, `Digits.`, `Digits.Digits`
or `.Digits`. -/
def parseMantissa (cs : List Char) : Option ℚ :=
  let ip := cs.takeWhile Char.isDigit
  let rest := cs.dropWhile Char.isDigit
  match rest with
  | [] => (digitsVal 10 ip).map (fun n => (n : ℚ))
  | '.' :: fp =>
    if ip.isEmpty then
      (digitsVal 10 fp).map (fun n => (n : ℚ) / (10 : ℚ) ^ fp.length)
    else if fp.isEmpty then
      (digitsVal 10 ip).map (fun n => (n : ℚ))
    else
      match digitsVal 10 ip, digitsVal 10 fp with
      | some i, some f => some ((i : ℚ) + (f : ℚ) / (10 : ℚ) ^ fp.length)
      | _, _ => none
  | _ => none

/-- An unsigned ECMAScript `StrDecimalLiteral`.  `Infinity` is mapped to
`none` together with `NaN`: the only consumer (`parseDate`) builds a
`Date`, which is invalid for every non-finite argument, so the two cases
are indistinguishable downstream. -/
def parseUnsignedDec (cs : List Char) : Option ℚ :=
  if cs = ['I', 'n', 'f', 'i', 'n', 'i', 't', 'y'] then none
  else
    let mant := cs.takeWhile (fun c => !(c == 'e' || c == 'E'))
    let rest := cs.dropWhile (fun c => !(c == 'e' || c == 'E'))
    match rest with
    | [] => parseMantissa mant
    | _ :: expCs =>
      match parseMantissa mant, parseExpPart expCs with
      | some m, some e => some (m * (10 : ℚ) ^ e)
      | _, _ => none

/-- A signed `StrDecimalLiteral`. -/
def parseSigned (cs : List Char) : Option ℚ :=
  match cs with
  | '+' :: rest => parseUnsignedDec rest
  | '-' :: rest => (parseUnsignedDec rest).map Neg.neg
  | _ => parseUnsignedDec cs

/-- Models the ECMAScript `Number(string)` conversion applied by
`.map(Number)` in `parseDate`; `none` stands for a non-finite result. -/
def jsNumber (s : String) : Option ℚ :=
  let cs := trimChars s.data
  if cs.isEmpty then some 0
  else
    match cs with
    | '0' :: x :: ds =>
      if x == 'x' || x == 'X' then (digitsVal 16 ds).map (fun n => (n : ℚ))
      else if x == 'o' || x == 'O' then (digitsVal 8 ds).map (fun n => (n : ℚ))
      else if x == 'b' || x == 'B' then (digitsVal 2 ds).map (fun n => (n : ℚ))
      else parseSigned cs
    | _ => parseSigned cs

/-- ECMAScript `ToIntegerOrInfinity` on a finite value: truncation toward
zero. -/
def jsTrunc (q : ℚ) : ℤ :=
  if 0 ≤ q then ⌊q⌋ else ⌈q⌉

/-- Day number of the civil date `y-m-d` (`m ∈ 1..12`) counted from
1970-01-01, the standard `days_from_civil` computation used to model the
ECMAScript `MakeDay` operation. -/
def daysFromCivil (y m d : ℤ) : ℤ :=
  let y1 := if m ≤ 2 then y - 1 else y
  let era := Int.fdiv y1 400
  let yoe := y1 - era * 400
  let mp := Int.fmod (m + 9) 12
  let doy := Int.fdiv (153 * mp + 2) 5 + d - 1
  let doe := yoe * 365 + Int.fdiv yoe 4 - Int.fdiv yoe 100 + doy
  era * 146097 + doe - 719468

/-- Models `new Date(y, m, d)` at day granularity: the two-digit-year
rule, month rollover, day rollover and the `TimeClip` range check
(applied here at day rather than millisecond granularity, ignoring
sub-day time-zone offsets).  `none` is an invalid date. -/
def mkDayNum (y m da : ℚ) : Option ℤ :=
  let yi := jsTrunc y
  let mi := jsTrunc m
  let di := jsTrunc da
  let yr := if 0 ≤ yi ∧ yi ≤ 99 then 1900 + yi else yi
  let ym := yr + Int.fdiv mi 12
  let mn := Int.fmod mi 12
  let day := daysFromCivil ym (mn + 1) 1 + di - 1
  if day < -100000000 ∨ 100000000 < day then none else some day

/-- Models `parseDate` of the source: split on `-`, convert the first
three pieces with `Number` (a missing piece is `undefined`, hence `NaN`),
and build `new Date(y, m - 1, da)`.  The result is the date's day number,
or `none` for an invalid date; comparisons and `getTime` differences of
valid dates built this way are ordered exactly like the day numbers. -/
def parseDate (d : String) : Option ℤ :=
  let ps := (splitDash d.data).map (fun g => jsNumber (String.mk g))
  match ps.get? 0, ps.get? 1, ps.get? 2 with
  | some (some y), some (some m), some (some da) => mkDayNum y (m - 1) da
  | _, _, _ => none

/-- Models `monthKey` of the source: template string over the first two
pieces of `d.split("-")`; a missing second piece renders as
`"undefined"`. -/
def monthKey (d : String) : String :=
  let ps := splitDash d.data
  (match ps.get? 0 with
   | some g => String.mk g
   | none => "") ++ "-" ++
  (match ps.get? 1 with
   | some g => String.mk g
   | none => "undefined")

/-- `Number.prototype.toFixed(2)` reparsed by `parseFloat`: rounding to
two decimal places, ties toward the larger value, as specified for
`toFixed`. -/
def toFixed2 (q : ℚ) : ℚ :=
  ((⌊q * 100 + 1 / 2⌋ : ℤ) : ℚ) / 100

/-! ### Mutators -/

/-- Models `addExpense`.  `u` is the string returned by `uid()` (random
identifier generation is not modelled; the engine never inspects it).
The source rejects the input when `!date || isNaN(amt) || amt <= 0 ||
!category` and otherwise prepends the new record and clears the amount
and note fields. -/
def addExpense (u : String) (s : State) : State :=
  match s.amountVal with
  | none => s
  | some amt =>
    if s.date = "" ∨ amt ≤ 0 ∨ s.category = "" then s
    else
      { s with
        expenses :=
          { id := u, date := s.date, amount := toFixed2 amt,
            category := s.category, note := some (jsTrim s.note) } ::
          s.expenses
        amountVal := none
        note := "" }

/-- Models `removeExpense`. -/
def removeExpense (i : String) (s : State) : State :=
  { s with expenses := s.expenses.filter (fun e => e.id ≠ i) }

/-- Models `clearAll`; `ok` is the result of the `confirm` dialog. -/
def clearAll (ok : Bool) (s : State) : State :=
  if ok then { s with expenses := [] } else s

/-- Models `addCategory`: trim, no-op if empty or already present,
otherwise append (and select the new category in the form). -/
def addCategory (c : String) (s : State) : State :=
  let t := jsTrim c
  if t = "" then s
  else if t ∈ s.categories then s
  else { s with categories := s.categories ++ [t], category := t }

/-! ### The filtered/sorted view -/

/-- Models the Date `>=` comparison of the filter: invalid dates convert
to `NaN` and every `NaN` comparison is false. -/
def jsDateGe (x y : Option ℤ) : Bool :=
  match x, y with
  | some a, some b => decide (b ≤ a)
  | _, _ => false

/-- Models the Date `<=` comparison of the filter. -/
def jsDateLe (x y : Option ℤ) : Bool :=
  match x, y with
  | some a, some b => decide (a ≤ b)
  | _, _ => false

/-- The three sequential filters applied by `shown` before sorting. -/
def filteredList (s : State) : List Expense :=
  let l0 := s.expenses
  let l1 :=
    if s.fromDate = "" then l0
    else l0.filter (fun e => jsDateGe (parseDate e.date) (parseDate s.fromDate))
  let l2 :=
    if s.toDate = "" then l1
    else l1.filter (fun e => jsDateLe (parseDate e.date) (parseDate s.toDate))
  if s.catFilter = "ALL" then l2
  else l2.filter (fun e => e.category == s.catFilter)

/-- The conjunction of the active filter predicates, as a single
predicate: an inactive control contributes a true conjunct. -/
def activePred (s : State) (e : Expense) : Bool :=
  (if s.fromDate = "" then true
   else jsDateGe (parseDate e.date) (parseDate s.fromDate)) &&
  ((if s.toDate = "" then true
    else jsDateLe (parseDate e.date) (parseDate s.toDate)) &&
   (if s.catFilter = "ALL" then true else e.category == s.catFilter))

/-- Models `a.localeCompare(b)` under code-point collation (the locale of
the runtime is not specified by the source). -/
def strCmp (a b : String) : ℤ :=
  if a < b then -1 else if b < a then 1 else 0

/-- The comparator value `cmp` computed by the sort callback, before the
direction adjustment; `none` is `NaN` (subtraction of an invalid date's
time). -/
def cmpRaw (k : SortKey) (a b : Expense) : Option ℚ :=
  match k with
  | SortKey.date =>
    match parseDate a.date, parseDate b.date with
    | some x, some y => some (((x - y : ℤ) : ℚ))
    | _, _ => none
  | SortKey.amount => some (a.amount - b.amount)
  | SortKey.category => some ((strCmp a.category b.category : ℚ))

/-- The returned comparator value `sortDir === "asc" ? cmp : -cmp`. -/
def cmpDir (k : SortKey) (d : SortDir) (a b : Expense) : Option ℚ :=
  (cmpRaw k a b).map (fun c => if d = SortDir.asc then c else -c)

/-- The "may come first" relation realised by the stable sort: `a` may
precede `b` iff the comparator does not strictly order `b` before `a`.
When the comparator value is `NaN` the ECMAScript sort order is
implementation-defined; the embedding fixes the one total behaviour of
placing invalid dates first in ascending order (and last in descending
order), which is irrelevant to every property proved below. -/
def sortLe (k : SortKey) (d : SortDir) (a b : Expense) : Bool :=
  match cmpDir k d a b with
  | some c => decide (c ≤ 0)
  | none =>
    (if d = SortDir.asc then parseDate a.date else parseDate b.date).isNone

/-- `sortLe` as a decidable relation. -/
def sortRel (k : SortKey) (d : SortDir) (a b : Expense) : Prop :=
  sortLe k d a b = true

instance (k : SortKey) (d : SortDir) : DecidableRel (sortRel k d) :=
  fun _ _ => inferInstanceAs (Decidable (_ = true))

/-- Models `shown`: filter, then stable sort by the selected comparator.
`Array.prototype.sort` is stable, and a stable sort with a total
transitive comparison has a unique result, here realised by
`List.insertionSort` (which is stable). -/
def shown (s : State) : List Expense :=
  List.insertionSort (sortRel s.sortKey s.sortDir) (filteredList s)

/-! ### Aggregates -/

/-- Models `shown.reduce((s, e) => s + e.amount, 0)`. -/
def total (l : List Expense) : ℚ :=
  l.foldl (fun acc e => acc + e.amount) 0

/-- Models `Map.prototype.get` on an insertion-ordered association
list. -/
def mapGet (m : List (String × ℚ)) (k : String) : Option ℚ :=
  (m.find? (fun p => p.1 == k)).map (fun p => p.2)

/-- Models `Map.prototype.set`: update the existing entry in place, else
append. -/
def mapSet : List (String × ℚ) → String → ℚ → List (String × ℚ)
  | [], k, v => [(k, v)]
  | (k0, v0) :: rest, k, v =>
    if k0 == k then (k0, v) :: rest else (k0, v0) :: mapSet rest k v

/-- The `forEach`/`Map` grouping loop shared by `byCategory` and
`byMonth`: `m.set(f e, (m.get(f e) || 0) + e.amount)` over the list. -/
def groupSum (f : Expense → String) (l : List Expense) : List (String × ℚ) :=
  l.foldl (fun m e => mapSet m (f e) ((mapGet m (f e)).getD 0 + e.amount)) []

/-- Models `byCategory`: group by category, with the `"No data"`
placeholder substituted by this computation itself when the array would
be empty. -/
def byCategory (l : List Expense) : List (String × ℚ) :=
  let arr := groupSum (fun e => e.category) l
  if arr.length > 0 then arr else [("No data", 1)]

/-- Models `byMonth`: group by `monthKey`, round each sum with
`parseFloat(v.toFixed(2))`, and sort ascending by the month string. -/
def byMonth (l : List Expense) : List (String × ℚ) :=
  let m := groupSum (fun e => monthKey e.date) l
  List.insertionSort (fun a b => strCmp a.1 b.1 ≤ 0)
    (m.map (fun p => (p.1, toFixed2 p.2)))

/-- The keys of an association list. -/
def keysOf (m : List (String × ℚ)) : List String :=
  m.map Prod.fst

/-- The sum of the amounts of the transactions grouped under key `k` by
the key function `f`. -/
def sumKey (f : Expense → String) (l : List Expense) (k : String) : ℚ :=
  ((l.filter (fun e => decide (f e = k))).map (fun e => e.amount)).sum

/-! ### Export / import -/

/-- A JSON value, as produced by `JSON.parse`. -/
inductive JValue where
  | jnull : JValue
  | jbool : Bool → JValue
  | jnum : ℚ → JValue
  | jstr : String → JValue
  | jarr : List JValue → JValue
  | jobj : List (String × JValue) → JValue

/-- First field of the given name in a parsed object. -/
def lookupField (fs : List (String × JValue)) (k : String) : Option JValue :=
  (fs.find? (fun p => p.1 == k)).map (fun p => p.2)

/-- Models JavaScript property access `v[k]`: `undefined` (`none`) on
non-objects; access on `null` throws before this point is reached. -/
def getField (v : JValue) (k : String) : Option JValue :=
  match v with
  | JValue.jobj fs => lookupField fs k
  | _ => none

/-- `JSON.stringify` of a transaction record: an `undefined` note field
is omitted. -/
def encodeExpense (e : Expense) : JValue :=
  JValue.jobj
    ([("id", JValue.jstr e.id), ("date", JValue.jstr e.date),
      ("amount", JValue.jnum e.amount), ("category", JValue.jstr e.category)] ++
     (match e.note with
      | some n => [("note", JValue.jstr n)]
      | none => []))

/-- Reading a transaction record back from a parsed JSON value.  The
source stores the parsed objects untyped and unvalidated; the typed
embedding must decode them, returning `none` for values that do not have
the record shape. -/
def decodeExpense (v : JValue) : Option Expense :=
  match getField v "id", getField v "date", getField v "amount",
        getField v "category" with
  | some (JValue.jstr i), some (JValue.jstr d), some (JValue.jnum a),
    some (JValue.jstr c) =>
    some
      { id := i, date := d, amount := a, category := c,
        note :=
          match getField v "note" with
          | some (JValue.jstr n) => some n
          | _ => none }
  | _, _, _, _ => none

/-- Reading a category string back from a parsed JSON value. -/
def decodeStr : JValue → Option String
  | JValue.jstr x => some x
  | _ => none

/-- Models `exportJSON`: the serialised object
`{ expenses, categories }` (the download mechanics are presentation
glue). -/
def exportJSON (s : State) : JValue :=
  JValue.jobj
    [("expenses", JValue.jarr (s.expenses.map encodeExpense)),
     ("categories", JValue.jarr (s.categories.map JValue.jstr))]

/-- The body of `importJSON` after a successful `JSON.parse`: each of the
two fields, if present and an array, fully replaces the corresponding
collection.  Accessing `.expenses` on `null` throws, landing in the
`catch` branch.  The returned flag records whether the `alert` was
shown. -/
def importParsed (v : JValue) (s : State) : State × Bool :=
  match v with
  | JValue.jnull => (s, true)
  | _ =>
    let s1 :=
      match getField v "expenses" with
      | some (JValue.jarr xs) => { s with expenses := xs.filterMap decodeExpense }
      | _ => s
    let s2 :=
      match getField v "categories" with
      | some (JValue.jarr cs) => { s1 with categories := cs.filterMap decodeStr }
      | _ => s1
    (s2, false)

/-- Models `importJSON`: the argument is the outcome of `JSON.parse` on
the file text, `none` when the text is not well-formed JSON and the parse
throws.  The flag records whether the `alert("Invalid file")` error was
surfaced. -/
def importJSON (p : Option JValue) (s : State) : State × Bool :=
  match p with
  | none => (s, true)
  | some v => importParsed v s

/-! ### Retrieval and reachability -/

/-- Retrieval of a transaction by identifier (the spec's notion of a
transaction being retrievable from the collection). -/
def getById (l : List Expense) (i : String) : Option Expense :=
  l.find? (fun e => e.id == i)

/-- The identifiers stored in a transaction collection. -/
def expIds (l : List Expense) : List String :=
  l.map (fun e => e.id)

/-- States reachable through the engine's operations: form edits, add
(with an arbitrary `uid()` result), remove, clear, add-category, the
startup load from storage (which installs whatever parsed data was
stored) and import (which installs whatever the file contained). -/
inductive Reach : State → Prop where
  | init (today : String) : Reach (initState today)
  | form (s : State) (d : String) (a : Option ℚ) (c n f t cf : String)
      (k : SortKey) (dir : SortDir) : Reach s →
      Reach { s with date := d, amountVal := a, category := c, note := n,
                     fromDate := f, toDate := t, catFilter := cf,
                     sortKey := k, sortDir := dir }
  | add (s : State) (u : String) : Reach s → Reach (addExpense u s)
  | remove (s : State) (i : String) : Reach s → Reach (removeExpense i s)
  | clear (s : State) (ok : Bool) : Reach s → Reach (clearAll ok s)
  | addCat (s : State) (c : String) : Reach s → Reach (addCategory c s)
  | load (s : State) (es : List Expense) (cs : List String) : Reach s →
      Reach { s with expenses := es, categories := cs }
  | importStep (s : State) (p : Option JValue) : Reach s →
      Reach (importJSON p s).1

/-- Reachability restricted as the uniqueness invariant requires: every
`uid()` result handed to add is fresh for the current collection, and
every load/import installs a collection whose identifiers are unique. -/
inductive ReachU : State → Prop where
  | init (today : String) : ReachU (initState today)
  | form (s : State) (d : String) (a : Option ℚ) (c n f t cf : String)
      (k : SortKey) (dir : SortDir) : ReachU s →
      ReachU { s with date := d, amountVal := a, category := c, note := n,
                      fromDate := f, toDate := t, catFilter := cf,
                      sortKey := k, sortDir := dir }
  | add (s : State) (u : String) : ReachU s → u ∉ expIds s.expenses →
      ReachU (addExpense u s)
  | remove (s : State) (i : String) : ReachU s → ReachU (removeExpense i s)
  | clear (s : State) (ok : Bool) : ReachU s → ReachU (clearAll ok s)
  | addCat (s : State) (c : String) : ReachU s → ReachU (addCategory c s)
  | load (s : State) (es : List Expense) (cs : List String) : ReachU s →
      (expIds es).Nodup → ReachU { s with expenses := es, categories := cs }
  | importStep (s : State) (p : Option JValue) : ReachU s →
      (expIds (importJSON p s).1.expenses).Nodup →
      ReachU (importJSON p s).1

/-! ### Concrete data used by the spec's examples -/

/-- The three sample records of the spec (and of the source's dev-test
block). -/
def exList : List Expense :=
  [{ id := "1", date := "2025-09-01", amount := 100, category := "Food",
     note := none },
   { id := "2", date := "2025-09-02", amount := 50, category := "Food",
     note := none },
   { id := "3", date := "2025-09-02", amount := 20, category := "Transport",
     note := none }]

/-- The example state sorted by amount ascending, with no filters
active. -/
def exAscState : State :=
  { initState "2025-09-10" with expenses := exList,
                                sortKey := SortKey.amount,
                                sortDir := SortDir.asc }

/-- The example state after toggling the sort direction. -/
def exDescState : State :=
  { exAscState with sortDir := SortDir.desc }

/-- Order on optional day numbers used to characterise the sort relation:
a valid date compares by day number, and the embedding's fixed behaviour
for invalid dates places them first. -/
def optLe : Option ℤ → Option ℤ → Prop
  | none, _ => True
  | some _, none => False
  | some u, some v => u ≤ v

/-- The specification of `query`: the view is a permutation of the
filtered collection, it is sorted by the selected comparator (pairwise,
the directed comparator value exists and is nonpositive), and ties are
kept in input order (the view restricted to any comparator-tie class is
that class of the filtered list, unreordered). -/
def queryOk (s : State) : Prop :=
  List.Perm (shown s) (s.expenses.filter (activePred s)) ∧
  (shown s).Pairwise
    (fun a b => ∃ c : ℚ, cmpDir s.sortKey s.sortDir a b = some c ∧ c ≤ 0) ∧
  ∀ e0 : Expense,
    (shown s).filter (fun b => decide (cmpRaw s.sortKey b e0 = some 0)) =
      (s.expenses.filter (activePred s)).filter
        (fun b => decide (cmpRaw s.sortKey b e0 = some 0))

/-- The specification of `aggregateByCategory` on a non-empty input: one
entry per distinct category, each mapped to the sum of the amounts of
that category. -/
def byCatOk (l : List Expense) : Prop :=
  (keysOf (byCategory l)).Nodup ∧
  (∀ k, k ∈ keysOf (byCategory l) ↔ k ∈ l.map (fun e => e.category)) ∧
  ∀ p ∈ byCategory l, p.2 = sumKey (fun e => e.category) l p.1

/-- The specification of `aggregateByMonth`: one entry per distinct
year-month key, each mapped to the rounded sum of that month's amounts,
in strictly increasing key order. -/
def byMonthOk (l : List Expense) : Prop :=
  (keysOf (byMonth l)).Nodup ∧
  (∀ k, k ∈ keysOf (byMonth l) ↔ k ∈ l.map (fun e => monthKey e.date)) ∧
  (∀ p ∈ byMonth l, p.2 = toFixed2 (sumKey (fun e => monthKey e.date) l p.1)) ∧
  (byMonth l).Pairwise (fun a b => a.1 < b.1)

/-- A concrete state with a valid add form. -/
def wit1State : State :=
  { initState "2025-01-01" with date := "2025-09-01",
                                amountVal := some (5678 / 1000),
                                category := "Food", note := " lunch " }

/-- A concrete state whose date field is non-empty but unparseable. -/
def c2BadDateState : State :=
  { initState "2025-01-01" with date := "x", amountVal := some 5 }

/-- A concrete state whose date field is empty. -/
def c2EmptyDateState : State :=
  { initState "2025-01-01" with date := "", amountVal := some 5 }

/-- A transaction whose amount has more than two decimal places (as an
imported file may contain). -/
def eEighth : Expense :=
  { id := "1", date := "2025-09-01", amount := 1 / 8, category := "Food",
    note := none }

/-- Two distinct records sharing one identifier. -/
def dupE1 : Expense :=
  { id := "a", date := "2025-09-01", amount := 1, category := "Food",
    note := none }

/-- Two distinct records sharing one identifier. -/
def dupE2 : Expense :=
  { id := "a", date := "2025-09-02", amount := 2, category := "Food",
    note := none }

/-- A well-formed import file whose expense records repeat an
identifier. -/
def dupJson : JValue :=
  JValue.jobj [("expenses", JValue.jarr [encodeExpense dupE1, encodeExpense dupE2])]

/-- The initial state with the add form filled in. -/
def c7FormState : State :=
  { initState "2025-01-01" with date := "2025-09-01", amountVal := some 5,
                                category := "Food", note := "",
                                fromDate := "", toDate := "",
                                catFilter := "ALL", sortKey := SortKey.date,
                                sortDir := SortDir.desc }

/-! ### Basic lemmas about the comparator and the filters -/

theorem filteredList_eq (s : State) :
    filteredList s = s.expenses.filter (activePred s) := by
  unfold filteredList activePred
  by_cases h1 : s.fromDate = "" <;> by_cases h2 : s.toDate = "" <;>
    by_cases h3 : s.catFilter = "ALL" <;>
      simp [h1, h2, h3, List.filter_filter, Bool.and_comm, Bool.and_left_comm,
        Bool.and_assoc]

theorem strCmp_nonpos {a b : String} : strCmp a b ≤ 0 ↔ a ≤ b := by
  unfold strCmp
  split_ifs with h1 h2
  · simpa using h1.le
  · norm_num [h2.not_le]
  · norm_num [not_lt.mp h2]

theorem strCmp_nonneg {a b : String} : 0 ≤ strCmp a b ↔ b ≤ a := by
  unfold strCmp
  split_ifs with h1 h2
  · norm_num [h1.not_le]
  · simpa using h2.le
  · norm_num [not_lt.mp h1]

theorem strCmp_eq_zero {a b : String} : strCmp a b = 0 ↔ a = b := by
  unfold strCmp
  split_ifs with h1 h2
  · norm_num [h1.ne]
  · norm_num [h2.ne']
  · simp [le_antisymm (not_lt.mp h2) (not_lt.mp h1)]

theorem optLe_total : ∀ x y : Option ℤ, optLe x y ∨ optLe y x
  | none, _ => Or.inl trivial
  | some _, none => Or.inr trivial
  | some u, some v => by simpa [optLe] using le_total u v

theorem optLe_trans : ∀ {x y z : Option ℤ}, optLe x y → optLe y z → optLe x z
  | none, _, _, _, _ => trivial
  | some _, none, _, h, _ => h.elim
  | some _, some _, none, _, h => h.elim
  | some _, some _, some _, h1, h2 => le_trans h1 h2

/-- Characterisation of the sort relation by the selected key and
direction. -/
theorem sortLe_char (k : SortKey) (d : SortDir) (a b : Expense) :
    sortLe k d a b = true ↔
      (match k, d with
       | SortKey.date, SortDir.asc => optLe (parseDate a.date) (parseDate b.date)
       | SortKey.date, SortDir.desc => optLe (parseDate b.date) (parseDate a.date)
       | SortKey.amount, SortDir.asc => a.amount ≤ b.amount
       | SortKey.amount, SortDir.desc => b.amount ≤ a.amount
       | SortKey.category, SortDir.asc => a.category ≤ b.category
       | SortKey.category, SortDir.desc => b.category ≤ a.category) := by
  cases k <;> cases d
  · rcases ha : parseDate a.date with _ | x <;> rcases hb : parseDate b.date with _ | y <;>
      simp [sortLe, cmpDir, cmpRaw, ha, hb, optLe, sub_nonpos]
  · rcases ha : parseDate a.date with _ | x <;> rcases hb : parseDate b.date with _ | y <;>
      simp [sortLe, cmpDir, cmpRaw, ha, hb, optLe, sub_nonneg]
  · simp [sortLe, cmpDir, cmpRaw, sub_nonpos]
  · simp [sortLe, cmpDir, cmpRaw, sub_nonneg]
  · simp [sortLe, cmpDir, cmpRaw, strCmp_nonpos]
  · simp [sortLe, cmpDir, cmpRaw, strCmp_nonneg]

theorem sortRel_total (k : SortKey) (d : SortDir) (a b : Expense) :
    sortRel k d a b ∨ sortRel k d b a := by
  unfold sortRel
  rw [sortLe_char, sortLe_char]
  cases k <;> cases d
  · exact optLe_total _ _
  · exact (optLe_total _ _).symm
  · exact le_total _ _
  · exact le_total _ _
  · exact le_total _ _
  · exact le_total _ _

theorem sortRel_trans (k : SortKey) (d : SortDir) {a b c : Expense} :
    sortRel k d a b → sortRel k d b c → sortRel k d a c := by
  unfold sortRel
  rw [sortLe_char, sortLe_char, sortLe_char]
  cases k <;> cases d
  · exact optLe_trans
  · exact fun h1 h2 => optLe_trans h2 h1
  · exact le_trans
  · exact fun h1 h2 => le_trans h2 h1
  · exact le_trans
  · exact fun h1 h2 => le_trans h2 h1

/-- Two records tied with a common record under the raw comparator are
related by the sort relation (in both directions). -/
theorem tie_sortRel (k : SortKey) (d : SortDir) (e0 a b : Expense)
    (ha : cmpRaw k a e0 = some 0) (hb : cmpRaw k b e0 = some 0) :
    sortRel k d a b := by
  unfold sortRel
  rw [sortLe_char]
  cases k
  · rcases hpa : parseDate a.date with _ | x <;>
      rcases hp0 : parseDate e0.date with _ | z <;>
        simp [cmpRaw, hpa, hp0] at ha
    rcases hpb : parseDate b.date with _ | y <;>
      simp [cmpRaw, hpb, hp0] at hb
    have hx : x = z := by exact_mod_cast sub_eq_zero.mp ha
    have hy : y = z := by exact_mod_cast sub_eq_zero.mp hb
    cases d <;> simp [hpa, hpb, optLe, hx, hy]
  · simp only [cmpRaw, Option.some.injEq] at ha hb
    have h : a.amount = b.amount := by
      have h1 := sub_eq_zero.mp ha
      have h2 := sub_eq_zero.mp hb
      rw [h1, h2]
    cases d <;> simp [h, le_refl]
  · simp only [cmpRaw, Option.some.injEq] at ha hb
    have h1 : a.category = e0.category := by
      exact strCmp_eq_zero.mp (by exact_mod_cast ha)
    have h2 : b.category = e0.category := by
      exact strCmp_eq_zero.mp (by exact_mod_cast hb)
    cases d <;> simp [h1, h2, le_refl]

/-- Stability of `insertionSort`, phrased through filters: the sorted
list restricted to any class of pairwise-related elements is that class
in input order. -/
theorem filter_insertionSort_tied {α : Type} (r : α → α → Prop) [DecidableRel r]
    (p : α → Bool) (l : List α) (hp : ∀ a b, p a = true → p b = true → r a b) :
    (List.insertionSort r l).filter p = l.filter p := by
  have hpw : (l.filter p).Pairwise r :=
    List.pairwise_of_forall_mem_list fun a ha b hb =>
      hp a b (List.mem_filter.mp ha).2 (List.mem_filter.mp hb).2
  have hsub : List.Sublist (l.filter p) (List.insertionSort r l) :=
    List.sublist_insertionSort hpw (List.filter_sublist l)
  have hperm : List.Perm ((List.insertionSort r l).filter p) (l.filter p) :=
    (List.perm_insertionSort r l).filter p
  have hself : (l.filter p).filter p = l.filter p :=
    List.filter_eq_self.mpr fun a ha => (List.mem_filter.mp ha).2
  have hsub2 : List.Sublist (l.filter p) ((List.insertionSort r l).filter p) := by
    have h2 := hsub.filter p
    rwa [hself] at h2
  exact (hsub2.eq_of_length hperm.length_eq.symm).symm

/-! ### Lemmas about the grouping map -/

theorem mapGet_cons (a : String) (b : ℚ) (rest : List (String × ℚ)) (q : String) :
    mapGet ((a, b) :: rest) q = if a = q then some b else mapGet rest q := by
  by_cases h : a = q
  · subst h
    simp [mapGet, List.find?]
  · have hb : (a == q) = false := beq_eq_false_iff_ne.mpr h
    simp [mapGet, List.find?, hb, h]

theorem mapSet_cons_self (k0 : String) (v0 : ℚ) (tl : List (String × ℚ)) (v : ℚ) :
    mapSet ((k0, v0) :: tl) k0 v = (k0, v) :: tl := by
  simp [mapSet]

theorem mapSet_cons_ne (k0 : String) (v0 : ℚ) (tl : List (String × ℚ))
    (k : String) (v : ℚ) (h : k0 ≠ k) :
    mapSet ((k0, v0) :: tl) k v = (k0, v0) :: mapSet tl k v := by
  simp [mapSet, beq_eq_false_iff_ne.mpr h]

theorem mapGet_mapSet (m : List (String × ℚ)) (k : String) (v : ℚ) (q : String) :
    mapGet (mapSet m k v) q = if q = k then some v else mapGet m q := by
  induction m with
  | nil =>
    show mapGet [(k, v)] q = if q = k then some v else mapGet [] q
    rw [mapGet_cons]
    by_cases h : q = k
    · rw [if_pos h.symm, if_pos h]
    · rw [if_neg (fun hh => h hh.symm), if_neg h]
  | cons hd tl ih =>
    obtain ⟨k0, v0⟩ := hd
    by_cases hk : k0 = k
    · subst hk
      rw [mapSet_cons_self, mapGet_cons, mapGet_cons]
      by_cases hq : k0 = q
      · rw [if_pos hq, if_pos hq.symm]
      · rw [if_neg hq, if_neg hq, if_neg (fun hh => hq hh.symm)]
    · rw [mapSet_cons_ne _ _ _ _ _ hk, mapGet_cons, mapGet_cons, ih]
      by_cases hq : k0 = q
      · have hqk : ¬ q = k := fun hh => hk (hq.trans hh)
        rw [if_pos hq, if_neg hqk, if_pos hq]
      · rw [if_neg hq]
        by_cases hqk : q = k
        · rw [if_pos hqk, if_pos hqk]
        · rw [if_neg hqk, if_neg hqk, if_neg hq]

theorem mem_keysOf_mapSet (m : List (String × ℚ)) (k : String) (v : ℚ)
    (q : String) : q ∈ keysOf (mapSet m k v) ↔ q = k ∨ q ∈ keysOf m := by
  induction m with
  | nil => simp [mapSet, keysOf]
  | cons hd tl ih =>
    obtain ⟨k0, v0⟩ := hd
    by_cases hk : k0 = k
    · subst hk
      rw [mapSet_cons_self]
      simp only [keysOf, List.map_cons, List.mem_cons]
      tauto
    · rw [mapSet_cons_ne _ _ _ _ _ hk]
      simp only [keysOf, List.map_cons, List.mem_cons] at ih ⊢
      rw [ih]
      tauto

theorem nodup_keysOf_mapSet (m : List (String × ℚ)) (k : String) (v : ℚ)
    (h : (keysOf m).Nodup) : (keysOf (mapSet m k v)).Nodup := by
  induction m with
  | nil => simp [mapSet, keysOf]
  | cons hd tl ih =>
    obtain ⟨k0, v0⟩ := hd
    simp only [keysOf, List.map_cons, List.nodup_cons] at h
    by_cases hk : k0 = k
    · subst hk
      rw [mapSet_cons_self]
      simp only [keysOf, List.map_cons, List.nodup_cons]
      exact h
    · rw [mapSet_cons_ne _ _ _ _ _ hk]
      simp only [keysOf, List.map_cons, List.nodup_cons]
      refine ⟨?_, ih h.2⟩
      intro hmem
      rcases (mem_keysOf_mapSet tl k v k0).mp hmem with rfl | hmem'
      · exact hk rfl
      · exact h.1 hmem'

theorem mapGet_of_mem_nodup (m : List (String × ℚ)) (p : String × ℚ)
    (hnd : (keysOf m).Nodup) (hmem : p ∈ m) : mapGet m p.1 = some p.2 := by
  induction m with
  | nil => cases hmem
  | cons hd tl ih =>
    obtain ⟨k0, v0⟩ := hd
    simp only [keysOf, List.map_cons, List.nodup_cons] at hnd
    rcases List.mem_cons.mp hmem with rfl | hmem'
    · simp [mapGet_cons]
    · have hne : k0 ≠ p.1 := by
        intro h
        exact hnd.1 (h ▸ List.mem_map.mpr ⟨p, hmem', rfl⟩)
      rw [mapGet_cons, if_neg hne]
      exact ih hnd.2 hmem'

theorem sumKey_nil (f : Expense → String) (q : String) : sumKey f [] q = 0 := by
  simp [sumKey]

theorem sumKey_cons (f : Expense → String) (e : Expense) (l : List Expense)
    (q : String) :
    sumKey f (e :: l) q = (if f e = q then e.amount else 0) + sumKey f l q := by
  by_cases h : f e = q <;> simp [sumKey, h]

theorem groupSum_fold_get (f : Expense → String) :
    ∀ (l : List Expense) (m : List (String × ℚ)) (q : String),
      mapGet
        (List.foldl
          (fun m e => mapSet m (f e) ((mapGet m (f e)).getD 0 + e.amount)) m l)
        q =
      (match mapGet m q with
       | some v => some (v + sumKey f l q)
       | none => if q ∈ l.map f then some (sumKey f l q) else none) := by
  intro l
  induction l with
  | nil =>
    intro m q
    cases h : mapGet m q <;> simp [h, sumKey_nil]
  | cons e l ih =>
    intro m q
    rw [List.foldl_cons, ih, mapGet_mapSet]
    by_cases hq : q = f e
    · subst hq
      rw [if_pos rfl]
      cases h : mapGet m (f e) with
      | none =>
        have hmem : f e ∈ (e :: l).map f := by
          rw [List.map_cons, List.mem_cons]
          exact Or.inl rfl
        simp only [Option.getD_none]
        show some (0 + e.amount + sumKey f l (f e)) =
          if f e ∈ (e :: l).map f then some (sumKey f (e :: l) (f e)) else none
        rw [if_pos hmem, sumKey_cons, if_pos rfl, zero_add]
      | some v =>
        simp only [Option.getD_some]
        show some (v + e.amount + sumKey f l (f e)) =
          some (v + sumKey f (e :: l) (f e))
        rw [sumKey_cons, if_pos rfl, add_assoc]
    · rw [if_neg hq]
      have hne : ¬ f e = q := fun hh => hq hh.symm
      have hmem : q ∈ (e :: l).map f ↔ q ∈ l.map f := by
        rw [List.map_cons, List.mem_cons]
        constructor
        · rintro (hh | hh)
          · exact absurd hh.symm hne
          · exact hh
        · exact fun hh => Or.inr hh
      cases h : mapGet m q with
      | none =>
        show (if q ∈ l.map f then some (sumKey f l q) else none) =
          if q ∈ (e :: l).map f then some (sumKey f (e :: l) q) else none
        simp only [hmem, sumKey_cons, if_neg hne, zero_add]
      | some v =>
        show some (v + sumKey f l q) = some (v + sumKey f (e :: l) q)
        rw [sumKey_cons, if_neg hne, zero_add]

theorem groupSum_get (f : Expense → String) (l : List Expense) (q : String) :
    mapGet (groupSum f l) q =
      if q ∈ l.map f then some (sumKey f l q) else none := by
  have h := groupSum_fold_get f l [] q
  simpa [groupSum, mapGet] using h

theorem mem_keysOf_groupSum_fold (f : Expense → String) :
    ∀ (l : List Expense) (m : List (String × ℚ)) (q : String),
      q ∈ keysOf
          (List.foldl
            (fun m e => mapSet m (f e) ((mapGet m (f e)).getD 0 + e.amount)) m l) ↔
        q ∈ keysOf m ∨ q ∈ l.map f := by
  intro l
  induction l with
  | nil => intro m q; simp
  | cons e l ih =>
    intro m q
    rw [List.foldl_cons, ih, mem_keysOf_mapSet, List.map_cons, List.mem_cons]
    tauto

theorem mem_keysOf_groupSum (f : Expense → String) (l : List Expense)
    (q : String) : q ∈ keysOf (groupSum f l) ↔ q ∈ l.map f := by
  have h := mem_keysOf_groupSum_fold f l [] q
  simpa [groupSum, keysOf] using h

theorem nodup_keysOf_groupSum_fold (f : Expense → String) :
    ∀ (l : List Expense) (m : List (String × ℚ)), (keysOf m).Nodup →
      (keysOf
        (List.foldl
          (fun m e => mapSet m (f e) ((mapGet m (f e)).getD 0 + e.amount)) m l)).Nodup := by
  intro l
  induction l with
  | nil => intro m h; simpa using h
  | cons e l ih =>
    intro m h
    rw [List.foldl_cons]
    exact ih _ (nodup_keysOf_mapSet _ _ _ h)

theorem nodup_keysOf_groupSum (f : Expense → String) (l : List Expense) :
    (keysOf (groupSum f l)).Nodup := by
  have h := nodup_keysOf_groupSum_fold f l [] (by simp [keysOf])
  simpa [groupSum] using h

theorem groupSum_entry (f : Expense → String) (l : List Expense)
    (p : String × ℚ) (hp : p ∈ groupSum f l) :
    p.1 ∈ l.map f ∧ p.2 = sumKey f l p.1 := by
  have hget := mapGet_of_mem_nodup _ p (nodup_keysOf_groupSum f l) hp
  have hmem : p.1 ∈ l.map f := by
    by_contra hq
    rw [groupSum_get, if_neg hq] at hget
    cases hget
  rw [groupSum_get, if_pos hmem] at hget
  exact ⟨hmem, (Option.some_inj.mp hget).symm⟩


theorem total_eq_sum (l : List Expense) :
    total l = (l.map (fun e => e.amount)).sum := by
  suffices h : ∀ q : ℚ,
      l.foldl (fun acc e => acc + e.amount) q = q + (l.map (fun e => e.amount)).sum by
    simpa [total] using h 0
  induction l with
  | nil => intro q; simp
  | cons e l ih => intro q; simp [ih, add_assoc]

/-! ### Frame lemmas and round-trip lemmas -/

theorem addExpense_categories (u : String) (s : State) :
    (addExpense u s).categories = s.categories := by
  unfold addExpense
  split
  · rfl
  · split <;> rfl

theorem clearAll_categories (ok : Bool) (s : State) :
    (clearAll ok s).categories = s.categories := by
  cases ok <;> rfl

theorem addCategory_expenses (c : String) (s : State) :
    (addCategory c s).expenses = s.expenses := by
  show (if jsTrim c = "" then s
        else if jsTrim c ∈ s.categories then s
        else { s with categories := s.categories ++ [jsTrim c],
                      category := jsTrim c }).expenses = s.expenses
  split_ifs <;> rfl

theorem decode_encode (e : Expense) : decodeExpense (encodeExpense e) = some e := by
  cases e with
  | mk i d a c n => cases n <;> with_unfolding_all rfl

theorem filterMap_decode_encode (l : List Expense) :
    (l.map encodeExpense).filterMap decodeExpense = l := by
  induction l with
  | nil => rfl
  | cons e l ih => simp [List.filterMap_cons, decode_encode, ih]

theorem filterMap_decodeStr (l : List String) :
    (l.map JValue.jstr).filterMap decodeStr = l := by
  induction l with
  | nil => rfl
  | cons s l ih => simp [List.filterMap_cons, decodeStr, ih]

theorem importJSON_export (s t : State) :
    importJSON (some (exportJSON s)) t =
      ({ t with expenses := (s.expenses.map encodeExpense).filterMap decodeExpense,
                categories := (s.categories.map JValue.jstr).filterMap decodeStr },
       false) := by
  with_unfolding_all rfl

theorem groupSum_ne_nil (f : Expense → String) (l : List Expense)
    (h : l ≠ []) : groupSum f l ≠ [] := by
  cases l with
  | nil => exact absurd rfl h
  | cons e l' =>
    intro hnil
    have hk : f e ∈ keysOf (groupSum f (e :: l')) :=
      (mem_keysOf_groupSum f _ _).mpr
        (by rw [List.map_cons]; exact List.mem_cons_self _ _)
    rw [hnil] at hk
    simp [keysOf] at hk

theorem byCategory_eq (l : List Expense) (h : l ≠ []) :
    byCategory l = groupSum (fun e => e.category) l := by
  show (if (groupSum (fun e => e.category) l).length > 0
        then groupSum (fun e => e.category) l else [("No data", 1)]) =
    groupSum (fun e => e.category) l
  rw [if_pos (List.length_pos.mpr (groupSum_ne_nil _ _ h))]

theorem cmpDir_some_of_valid (k : SortKey) (d : SortDir) (a b : Expense)
    (hk : k = SortKey.date →
      (parseDate a.date).isSome = true ∧ (parseDate b.date).isSome = true) :
    ∃ c : ℚ, cmpDir k d a b = some c := by
  cases k with
  | date =>
    obtain ⟨ha, hb⟩ := hk rfl
    rcases hpa : parseDate a.date with _ | x
    · rw [hpa] at ha; cases ha
    rcases hpb : parseDate b.date with _ | y
    · rw [hpb] at hb; cases hb
    refine ⟨if d = SortDir.asc then ((x - y : ℤ) : ℚ) else -((x - y : ℤ) : ℚ), ?_⟩
    simp [cmpDir, cmpRaw, hpa, hpb]
  | amount =>
    refine ⟨if d = SortDir.asc then a.amount - b.amount else -(a.amount - b.amount), ?_⟩
    simp [cmpDir, cmpRaw]
  | category =>
    refine ⟨if d = SortDir.asc then (strCmp a.category b.category : ℚ)
            else -(strCmp a.category b.category : ℚ), ?_⟩
    simp [cmpDir, cmpRaw]

theorem sortRel_cmp_nonpos (k : SortKey) (d : SortDir) {a b : Expense}
    (hex : ∃ c : ℚ, cmpDir k d a b = some c) (hr : sortRel k d a b) :
    ∃ c : ℚ, cmpDir k d a b = some c ∧ c ≤ 0 := by
  obtain ⟨c, hc⟩ := hex
  refine ⟨c, hc, ?_⟩
  unfold sortRel sortLe at hr
  rw [hc] at hr
  exact of_decide_eq_true hr

/-! ### The claims -/

/-- C1: for every valid input (non-empty parseable date, positive numeric
amount, non-empty category), add succeeds: it creates a transaction whose
amount is the input rounded to 2 decimal places, prepends it to the
collection leaving the previously stored transactions unchanged and in
order, and the new transaction is retrievable by its generated
identifier. -/
theorem c1_add_valid (s : State) (u : String) (a : ℚ)
    (hdate : s.date ≠ "") (hparse : (parseDate s.date).isSome = true)
    (hamt : s.amountVal = some a) (hpos : 0 < a) (hcat : s.category ≠ "") :
    (addExpense u s).expenses =
      { id := u, date := s.date, amount := toFixed2 a, category := s.category,
        note := some (jsTrim s.note) } :: s.expenses ∧
    getById (addExpense u s).expenses u =
      some { id := u, date := s.date, amount := toFixed2 a,
             category := s.category, note := some (jsTrim s.note) } := by
  have hcond : ¬ (s.date = "" ∨ a ≤ 0 ∨ s.category = "") := by
    push_neg
    exact ⟨hdate, hpos, hcat⟩
  have hexp : (addExpense u s).expenses =
      { id := u, date := s.date, amount := toFixed2 a, category := s.category,
        note := some (jsTrim s.note) } :: s.expenses := by
    simp only [addExpense, hamt]
    rw [if_neg hcond]
  refine ⟨hexp, ?_⟩
  rw [hexp]
  unfold getById
  rw [List.find?_cons_of_pos]
  simp

theorem c1_add_valid_witness :
    (wit1State.date ≠ "" ∧ (parseDate wit1State.date).isSome = true ∧
     wit1State.amountVal = some (5678 / 1000) ∧ (0 : ℚ) < 5678 / 1000 ∧
     wit1State.category ≠ "") ∧
    ((addExpense "id1" wit1State).expenses =
      { id := "id1", date := wit1State.date, amount := toFixed2 (5678 / 1000),
        category := wit1State.category,
        note := some (jsTrim wit1State.note) } :: wit1State.expenses ∧
     getById (addExpense "id1" wit1State).expenses "id1" =
      some { id := "id1", date := wit1State.date,
             amount := toFixed2 (5678 / 1000), category := wit1State.category,
             note := some (jsTrim wit1State.note) }) := by
  have h1 : wit1State.date ≠ "" :=
    of_decide_eq_true (by with_unfolding_all rfl)
  have h2 : (parseDate wit1State.date).isSome = true := by with_unfolding_all rfl
  have h3 : wit1State.amountVal = some (5678 / 1000) := by with_unfolding_all rfl
  have h4 : (0 : ℚ) < 5678 / 1000 := by norm_num
  have h5 : wit1State.category ≠ "" :=
    of_decide_eq_true (by with_unfolding_all rfl)
  exact ⟨⟨h1, h2, h3, h4, h5⟩, c1_add_valid wit1State "id1" (5678 / 1000) h1 h2 h3 h4 h5⟩

/-- C2 counterexample: a non-empty but unparseable date passes
validation, so add does create a record (the source checks only `!date`,
never that the date parses). -/
theorem c2_counterexample :
    (c2BadDateState.date ≠ "" ∧ parseDate c2BadDateState.date = none) ∧
    (addExpense "i1" c2BadDateState).expenses ≠ c2BadDateState.expenses := by
  refine ⟨⟨of_decide_eq_true (by with_unfolding_all rfl), by with_unfolding_all rfl⟩, ?_⟩
  have h : (addExpense "i1" c2BadDateState).expenses =
      [{ id := "i1", date := "x", amount := 5, category := "Food",
         note := some "" }] := by
    with_unfolding_all rfl
  have h2 : c2BadDateState.expenses = [] := by with_unfolding_all rfl
  rw [h, h2]
  exact List.cons_ne_nil _ _

/-- C2 (amended): add with an empty date, a non-positive (or `NaN`)
amount, or an empty category is rejected and the whole state — in
particular the transaction collection — is left unchanged; a non-empty
unparseable date is, however, accepted. -/
theorem c2_add_invalid (s : State) (u : String)
    (h : s.date = "" ∨ (∀ a ∈ s.amountVal, a ≤ 0) ∨ s.category = "") :
    addExpense u s = s := by
  cases ha : s.amountVal with
  | none => simp only [addExpense, ha]
  | some a =>
    have hcond : s.date = "" ∨ a ≤ 0 ∨ s.category = "" := by
      rcases h with h | h | h
      · exact Or.inl h
      · exact Or.inr (Or.inl (h a (by rw [ha]; rfl)))
      · exact Or.inr (Or.inr h)
    simp only [addExpense, ha]
    rw [if_pos hcond]

theorem c2_add_invalid_witness :
    (c2EmptyDateState.date = "" ∨ (∀ a ∈ c2EmptyDateState.amountVal, a ≤ 0) ∨
     c2EmptyDateState.category = "") ∧
    addExpense "i1" c2EmptyDateState = c2EmptyDateState := by
  have h : c2EmptyDateState.date = "" := by with_unfolding_all rfl
  exact ⟨Or.inl h, c2_add_invalid _ _ (Or.inl h)⟩

/-- C4: the displayed total of the queried view equals the arithmetic sum
of the filtered transactions' amounts, for every filter (and sort)
combination. -/
theorem c4_total (s : State) :
    total (shown s) =
      ((s.expenses.filter (activePred s)).map (fun e => e.amount)).sum := by
  rw [total_eq_sum]
  have hperm : List.Perm (shown s) (s.expenses.filter (activePred s)) := by
    rw [← filteredList_eq]
    exact List.perm_insertionSort _ _
  exact (hperm.map (fun e => e.amount)).sum_eq

/-- C9: importing a file that is not well-formed JSON surfaces the
user-visible error and leaves both collections exactly unchanged. -/
theorem c9_import_malformed (s : State) :
    (importJSON none s).1.expenses = s.expenses ∧
    (importJSON none s).1.categories = s.categories ∧
    (importJSON none s).2 = true :=
  ⟨rfl, rfl, rfl⟩

/-- C10: the transaction mutators never touch the category collection,
and the category mutator never touches the transaction collection. -/
theorem c10_frame (s : State) (u i c : String) (ok : Bool) :
    (addExpense u s).categories = s.categories ∧
    (removeExpense i s).categories = s.categories ∧
    (clearAll ok s).categories = s.categories ∧
    (addCategory c s).expenses = s.expenses :=
  ⟨addExpense_categories u s, rfl, clearAll_categories ok s,
   addCategory_expenses c s⟩

/-- C6: importing the file produced by export reproduces an equal
(transactions, categories) state, with no error surfaced. -/
theorem c6_roundtrip (s t : State) :
    (importJSON (some (exportJSON s)) t).1.expenses = s.expenses ∧
    (importJSON (some (exportJSON s)) t).1.categories = s.categories ∧
    (importJSON (some (exportJSON s)) t).2 = false := by
  rw [importJSON_export]
  exact ⟨filterMap_decode_encode s.expenses, filterMap_decodeStr s.categories, rfl⟩

theorem keysOf_map_snd (f : ℚ → ℚ) (m : List (String × ℚ)) :
    keysOf (m.map (fun p => (p.1, f p.2))) = keysOf m := by
  induction m with
  | nil => rfl
  | cons p m ih =>
    simp only [keysOf, List.map_cons] at ih ⊢
    rw [ih]

/-- C5 counterexample: on the empty input the engine itself substitutes
the `"No data"` placeholder entry, so the result is not the empty
mapping. -/
theorem c5_counterexample :
    byCategory [] ≠ [] ∧ byCategory [] = [("No data", 1)] := by
  have h : byCategory [] = [("No data", 1)] := by with_unfolding_all rfl
  constructor
  · rw [h]
    exact List.cons_ne_nil _ _
  · exact h

/-- C5 (amended): on a non-empty input, aggregateByCategory returns
exactly one entry per distinct category, each mapped to the sum of the
amounts of that category, and the spec's example evaluates as stated; on
the empty input, however, the engine itself (not the caller) substitutes
the single placeholder entry `("No data", 1)`. -/
theorem c5_by_category (l : List Expense) (hne : l ≠ []) :
    byCatOk l ∧ byCategory [] = [("No data", 1)] ∧
    byCategory exList = [("Food", 150), ("Transport", 20)] := by
  refine ⟨?_, by with_unfolding_all rfl, by with_unfolding_all rfl⟩
  unfold byCatOk
  rw [byCategory_eq l hne]
  exact ⟨nodup_keysOf_groupSum _ _, fun k => mem_keysOf_groupSum _ _ _,
    fun p hp => (groupSum_entry _ _ _ hp).2⟩

theorem c5_by_category_witness :
    exList ≠ [] ∧
    (byCatOk exList ∧ byCategory [] = [("No data", 1)] ∧
     byCategory exList = [("Food", 150), ("Transport", 20)]) := by
  have hne : exList ≠ [] := by simp [exList]
  exact ⟨hne, c5_by_category exList hne⟩

/-- C8 counterexample: the engine rounds each month's sum to 2 decimal
places, so a month whose exact sum has more decimals (amount 1/8) is not
mapped to the sum itself. -/
theorem c8_counterexample :
    ¬ ∀ p ∈ byMonth [eEighth],
        p.2 = sumKey (fun e => monthKey e.date) [eEighth] p.1 := by
  intro hall
  have hm : byMonth [eEighth] = [("2025-09", 13 / 100)] := by
    with_unfolding_all rfl
  have hmem : (("2025-09", (13 : ℚ) / 100)) ∈ byMonth [eEighth] := by
    rw [hm]
    exact List.mem_cons_self _ _
  have h : (13 : ℚ) / 100 = sumKey (fun e => monthKey e.date) [eEighth] "2025-09" :=
    hall _ hmem
  have hs : sumKey (fun e => monthKey e.date) [eEighth] "2025-09" = 1 / 8 := by
    with_unfolding_all rfl
  rw [hs] at h
  norm_num at h

/-- C8 (amended): aggregateByMonth groups by the date's year-month, maps
each month to the sum of its transactions' amounts rounded to 2 decimal
places, returns the pairs in strictly ascending key order, and the spec's
example evaluates as stated (there the sums have at most 2 decimals, so
rounding changes nothing). -/
theorem c8_by_month (l : List Expense) :
    byMonthOk l ∧ byMonth exList = [("2025-09", 170)] := by
  refine ⟨?_, by with_unfolding_all rfl⟩
  unfold byMonthOk
  have hperm : List.Perm (byMonth l)
      ((groupSum (fun e => monthKey e.date) l).map (fun p => (p.1, toFixed2 p.2))) :=
    List.perm_insertionSort _ _
  have hpermKeys : List.Perm (keysOf (byMonth l))
      (keysOf ((groupSum (fun e => monthKey e.date) l).map (fun p => (p.1, toFixed2 p.2)))) :=
    hperm.map Prod.fst
  rw [keysOf_map_snd] at hpermKeys
  have hnd : (keysOf (byMonth l)).Nodup :=
    hpermKeys.nodup_iff.mpr (nodup_keysOf_groupSum _ _)
  refine ⟨hnd, ?_, ?_, ?_⟩
  · intro k
    rw [hpermKeys.mem_iff, mem_keysOf_groupSum]
  · intro p hp
    have hp' : p ∈ (groupSum (fun e => monthKey e.date) l).map
        (fun p => (p.1, toFixed2 p.2)) := hperm.mem_iff.mp hp
    rcases List.mem_map.mp hp' with ⟨q, hq, rfl⟩
    have hqv := (groupSum_entry _ _ _ hq).2
    show toFixed2 q.2 = toFixed2 (sumKey (fun e => monthKey e.date) l q.1)
    rw [hqv]
  · haveI : IsTotal (String × ℚ) (fun a b => strCmp a.1 b.1 ≤ 0) :=
      ⟨fun a b => by
        rcases le_total a.1 b.1 with h | h
        · exact Or.inl (strCmp_nonpos.mpr h)
        · exact Or.inr (strCmp_nonpos.mpr h)⟩
    haveI : IsTrans (String × ℚ) (fun a b => strCmp a.1 b.1 ≤ 0) :=
      ⟨fun a b c hab hbc =>
        strCmp_nonpos.mpr (le_trans (strCmp_nonpos.mp hab) (strCmp_nonpos.mp hbc))⟩
    have hsorted : (byMonth l).Pairwise (fun a b => strCmp a.1 b.1 ≤ 0) :=
      List.sorted_insertionSort _ _
    have hne : (byMonth l).Pairwise (fun a b => a.1 ≠ b.1) :=
      List.pairwise_map.mp hnd
    exact (hsorted.and hne).imp fun h => lt_of_le_of_ne (strCmp_nonpos.mp h.1) h.2

/-- C3: for every state, query returns exactly the transactions
satisfying the conjunction of the active filter predicates, as a
permutation sorted by the selected comparator in the selected direction
(whenever the sort key's comparator is defined on the view, which for the
date key means the dates parse), with ties kept in input order; on the
spec's three example records, sorting by amount ascending yields the
amounts [20, 50, 100] and toggling the direction reverses the view
exactly. -/
theorem c3_query (s : State)
    (hd : s.sortKey = SortKey.date →
      ∀ e ∈ filteredList s, (parseDate e.date).isSome = true) :
    queryOk s ∧ (shown exAscState).map (fun e => e.amount) = [20, 50, 100] ∧
    shown exDescState = (shown exAscState).reverse := by
  refine ⟨⟨?_, ?_, ?_⟩, by with_unfolding_all rfl, by with_unfolding_all rfl⟩
  · rw [← filteredList_eq]
    exact List.perm_insertionSort _ _
  · haveI : IsTotal Expense (sortRel s.sortKey s.sortDir) := ⟨sortRel_total _ _⟩
    haveI : IsTrans Expense (sortRel s.sortKey s.sortDir) :=
      ⟨fun a b c => sortRel_trans _ _⟩
    have hsorted : (shown s).Pairwise (sortRel s.sortKey s.sortDir) :=
      List.sorted_insertionSort _ _
    have hmem : ∀ x ∈ shown s, x ∈ filteredList s := by
      intro x hx
      have hperm : List.Perm (shown s) (filteredList s) :=
        List.perm_insertionSort _ _
      exact hperm.mem_iff.mp hx
    refine hsorted.imp_of_mem ?_
    intro a b ha hb hr
    refine sortRel_cmp_nonpos _ _ ?_ hr
    refine cmpDir_some_of_valid _ _ _ _ ?_
    intro hdate
    exact ⟨hd hdate a (hmem a ha), hd hdate b (hmem b hb)⟩
  · intro e0
    rw [← filteredList_eq]
    exact filter_insertionSort_tied _ _ _
      (fun a b hpa hpb =>
        tie_sortRel _ _ e0 a b (of_decide_eq_true hpa) (of_decide_eq_true hpb))

theorem c3_query_witness :
    (exAscState.sortKey = SortKey.date →
      ∀ e ∈ filteredList exAscState, (parseDate e.date).isSome = true) ∧
    (queryOk exAscState ∧
     (shown exAscState).map (fun e => e.amount) = [20, 50, 100] ∧
     shown exDescState = (shown exAscState).reverse) := by
  have hd : exAscState.sortKey = SortKey.date →
      ∀ e ∈ filteredList exAscState, (parseDate e.date).isSome = true := by
    intro h
    exact SortKey.noConfusion h
  exact ⟨hd, c3_query exAscState hd⟩

/-- C7 counterexample: import installs the file's records without
validation, so importing a well-formed file whose records repeat an
identifier reaches a state with duplicate identifiers. -/
theorem c7_counterexample :
    Reach (importJSON (some dupJson) (initState "2025-01-01")).1 ∧
    ¬ (expIds (importJSON (some dupJson) (initState "2025-01-01")).1.expenses).Nodup := by
  constructor
  · exact Reach.importStep _ _ (Reach.init "2025-01-01")
  · have h : expIds (importJSON (some dupJson) (initState "2025-01-01")).1.expenses =
        ["a", "a"] := by with_unfolding_all rfl
    rw [h]
    intro hnd
    rcases List.nodup_cons.mp hnd with ⟨hna, _⟩
    exact hna (List.mem_cons_self _ _)

/-- C7 (amended): identifiers are unique in every state reachable when
each generated identifier handed to add is fresh for the current
collection and every load/import installs a collection whose identifiers
are unique; without those assumptions the code does not enforce
uniqueness (import and the storage load replace the collection wholesale
without validation, and the generated identifier is an unchecked random
string). -/
theorem c7_unique_ids (s : State) (h : ReachU s) : (expIds s.expenses).Nodup := by
  induction h with
  | init today => exact List.nodup_nil
  | form s d a c n f t cf k dir hr ih => exact ih
  | add s u hr hu ih =>
    cases ha : s.amountVal with
    | none =>
      have heq : addExpense u s = s := by simp only [addExpense, ha]
      rw [heq]
      exact ih
    | some a =>
      by_cases hcond : s.date = "" ∨ a ≤ 0 ∨ s.category = ""
      · have heq : addExpense u s = s := by
          simp only [addExpense, ha]
          rw [if_pos hcond]
        rw [heq]
        exact ih
      · have hexp : (addExpense u s).expenses =
            { id := u, date := s.date, amount := toFixed2 a,
              category := s.category, note := some (jsTrim s.note) } ::
            s.expenses := by
          simp only [addExpense, ha]
          rw [if_neg hcond]
        rw [hexp]
        exact List.nodup_cons.mpr ⟨hu, ih⟩
  | remove s i hr ih =>
    have hsub : List.Sublist
        ((s.expenses.filter (fun e => e.id ≠ i)).map (fun e => e.id))
        (s.expenses.map (fun e => e.id)) :=
      (List.filter_sublist _).map _
    exact List.Nodup.sublist hsub ih
  | clear s ok hr ih =>
    cases ok with
    | false => exact ih
    | true => exact List.nodup_nil
  | addCat s c hr ih =>
    rw [show (addCategory c s).expenses = s.expenses from addCategory_expenses c s]
    exact ih
  | load s es cs hr hnd ih => exact hnd
  | importStep s p hr hnd ih => exact hnd

theorem c7_unique_ids_witness :
    ReachU (addExpense "u1" c7FormState) ∧
    (expIds (addExpense "u1" c7FormState).expenses).Nodup := by
  have hform : ReachU c7FormState :=
    ReachU.form (initState "2025-01-01") "2025-09-01" (some 5) "Food" "" "" ""
      "ALL" SortKey.date SortDir.desc (ReachU.init "2025-01-01")
  have hr : ReachU (addExpense "u1" c7FormState) :=
    ReachU.add c7FormState "u1" hform (fun hmem => List.not_mem_nil _ hmem)
  exact ⟨hr, c7_unique_ids _ hr⟩

end ExpenseTracker
